import Mathlib

/-!
Shallow embedding of the timekeeper repository's parsing core
(src/parser.rs and the validation fragment of src/app.rs).

Rust strings are modelled as lists of bytes (`List Nat`, each entry < 256,
UTF-8 encoded), because the source indexes and slices strings by byte
position (`&time_str[..len-2]` and friends), and those operations panic on
non-char-boundary indices.  `chrono`-library behaviour that the source
relies on (`NaiveTime::parse_from_str` with the "%H:%M" and "%I:%M %P"
formats, `NaiveDate::from_ymd_opt`) is embedded from chrono 0.4's
`format/parse.rs` and `format/scan.rs`: numeric items trim leading
whitespace then consume 1..=width ASCII digit bytes, literal items match
exactly, a space item in the format trims zero or more whitespace, the
am/pm item compares two bytes case-insensitively, trailing input is an
error, and each field setter range-checks its value.
-/

/-- Bytes of an ASCII string literal (every character below 0x80), used to
write concrete byte-list inputs and the error-message texts of the code. -/
def ascii (s : String) : List Nat := s.data.map Char.toNat

/-- Decimal rendering of a number, as Rust's Display for u32 renders it
(no padding, base 10). -/
def natRepr (n : Nat) : List Nat := ascii (Nat.repr n)

/-- ASCII digit byte test, as u8::is_ascii_digit / char::is_digit(10) on
ASCII bytes. -/
def isAsciiDigit (b : Nat) : Bool := decide (48 ≤ b ∧ b ≤ 57)

/-- ASCII whitespace byte test.  `str::trim_start` trims Unicode
whitespace; every input in this development only ever carries ASCII
whitespace, for which the byte test below is exact. -/
def isWsByte (b : Nat) : Bool :=
  decide (b = 32 ∨ b = 9 ∨ b = 10 ∨ b = 11 ∨ b = 12 ∨ b = 13)

/-- Model of `str::trim_start` (chrono calls it before numeric items and
for space items). -/
def trimLeft : List Nat → List Nat
  | [] => []
  | b :: rest => if isWsByte b then trimLeft rest else b :: rest

/-- Consume up to `w` leading ASCII digit bytes, returning them and the
remaining input; the digit-scanning loop of chrono `scan::number`. -/
def takeDigits : Nat → List Nat → List Nat × List Nat
  | 0, s => ([], s)
  | _, [] => ([], [])
  | w + 1, b :: rest =>
    if isAsciiDigit b then
      let p := takeDigits w rest
      (b :: p.1, p.2)
    else ([], b :: rest)

/-- Value of a digit-byte string read in base 10. -/
def digitsVal (ds : List Nat) : Nat := ds.foldl (fun a b => 10 * a + (b - 48)) 0

/-- chrono `scan::number(s, 1, w)`: consume up to `w` digit bytes, at
least one, and return the value with the rest of the input.  (Overflow of
i64 cannot occur at the widths used here, so it is not modelled.) -/
def scanNumber (w : Nat) (s : List Nat) : Option (Nat × List Nat) :=
  let p := takeDigits w s
  if p.1.isEmpty then none else some (digitsVal p.1, p.2)

/-- chrono `NaiveTime` restricted to what this program produces: an
(hour, minute) pair; the second component is always zero on every path of
the source (parsing "%H:%M"/"%I:%M %P" defaults seconds to 0, and the one
explicit construction passes 0). -/
structure NaiveTime where
  hour : Nat
  minute : Nat
deriving DecidableEq, Repr

/-- chrono `NaiveTime::parse_from_str(s, "%H:%M")`: item sequence
[Numeric Hour, Literal ":", Numeric Minute]; each numeric item trims
leading whitespace then scans 1..=2 digits; `set_hour` requires 0..=23 and
`set_minute` 0..=59; leftover input is an error. -/
def parseHM (s : List Nat) : Option NaiveTime :=
  match scanNumber 2 (trimLeft s) with
  | none => none
  | some (h, s1) =>
    if h ≤ 23 then
      match s1 with
      | 58 :: s2 =>
        match scanNumber 2 (trimLeft s2) with
        | none => none
        | some (m, s3) =>
          if m ≤ 59 ∧ s3 = [] then some ⟨h, m⟩ else none
      | _ => none
    else none

/-- chrono `NaiveTime::parse_from_str(s, "%I:%M %P")`: item sequence
[Numeric Hour12, Literal ":", Numeric Minute, Space, Fixed LowerAmPm].
`set_hour12` requires 1..=12; the space item trims zero or more
whitespace; the am/pm item compares the next two bytes case-insensitively
(byte OR 0x20, hence the two-element sets below) and sets the half-day;
the resulting hour is hour12 % 12 plus 12 when pm. -/
def parseIMP (s : List Nat) : Option NaiveTime :=
  match scanNumber 2 (trimLeft s) with
  | none => none
  | some (h12, s1) =>
    if 1 ≤ h12 ∧ h12 ≤ 12 then
      match s1 with
      | 58 :: s2 =>
        match scanNumber 2 (trimLeft s2) with
        | none => none
        | some (m, s3) =>
          if m ≤ 59 then
            match trimLeft s3 with
            | a :: b :: s4 =>
              if (a = 97 ∨ a = 65) ∧ (b = 109 ∨ b = 77) then
                if s4 = [] then some ⟨h12 % 12, m⟩ else none
              else if (a = 112 ∨ a = 80) ∧ (b = 109 ∨ b = 77) then
                if s4 = [] then some ⟨12 + h12 % 12, m⟩ else none
              else none
            | _ => none
          else none
      | _ => none
    else none

/-- Rust `str::is_char_boundary` on UTF-8 bytes: position 0 and the end
are boundaries, a position past the end is not, and an interior position
is a boundary unless it carries a continuation byte (0x80..=0xBF). -/
def isCharBoundary (s : List Nat) (i : Nat) : Bool :=
  if i = 0 then true
  else
    match s.drop i with
    | [] => decide (i = s.length)
    | b :: _ => decide (¬ (128 ≤ b ∧ b ≤ 191))

/-- Rust byte slicing `&s[lo..hi]`: `none` models the panic raised when
the range is inverted, out of bounds, or cut at a non-char-boundary. -/
def rustSlice (s : List Nat) (lo hi : Nat) : Option (List Nat) :=
  if decide (lo ≤ hi) && decide (hi ≤ s.length)
      && isCharBoundary s lo && isCharBoundary s hi then
    some ((s.take hi).drop lo)
  else none

/-- Rust `str::to_lowercase`, byte-level: ASCII uppercase gains 0x20.
Unicode lowercasing of non-ASCII characters is not modelled; on inputs
whose non-ASCII characters have no uppercase form (all inputs considered
here, e.g. the accented letter in the panic witness) this is exact. -/
def toLowercase (s : List Nat) : List Nat :=
  s.map (fun b => if 65 ≤ b ∧ b ≤ 90 then b + 32 else b)

/-- Rust `str::ends_with(suffix)`: byte-suffix comparison. -/
def endsWith (s suf : List Nat) : Bool :=
  decide (suf.length ≤ s.length) && decide (s.drop (s.length - suf.length) = suf)

/-- The error enum of src/app.rs (payloads modelled as byte strings). -/
inductive TimeKeeperError where
  | DatabaseError (e : List Nat)
  | InvalidTime (time : List Nat)
  | CheckOutBeforeCheckIn
  | NoCheckInRecord
  | ParseError (msg : List Nat)
deriving DecidableEq, Repr

/-- Outcome of `parse_time_str`: a parsed time, a returned error, or a
process panic (Rust byte-slicing on a non-char-boundary index). -/
inductive PTResult where
  | ok (t : NaiveTime)
  | err (e : TimeKeeperError)
  | panicked
deriving DecidableEq, Repr

/-- The error built at the end of `parse_time_str` (src/parser.rs:91-94):
ParseError with message: Invalid time format |val|. Use HH:MM (24-hour)
or HHMM(am/pm) like 530pm — where the original input is interpolated
between two apostrophe bytes (0x27). -/
def timeFormatErr (val : List Nat) : TimeKeeperError :=
  .ParseError (ascii "Invalid time format " ++ [39] ++ val ++ [39, 46, 32]
    ++ ascii "Use HH:MM (24-hour) or HHMM(am/pm) like 530pm")

/-- The time-part normalisation of the am/pm branch of `parse_time_str`
(src/parser.rs:66-83): with no colon, length ≤ 2 means the whole part is
the hour with ":00" appended; otherwise the hour is the first one (length
exactly 3) or first two bytes and the minute always the last two bytes;
with a colon the part is used as is.  `none` models the slicing panic. -/
def normalizedTime (timePart meridian : List Nat) : Option (List Nat) :=
  if timePart.contains 58 = false then
    if timePart.length ≤ 2 then
      some (timePart ++ ascii ":00 " ++ meridian)
    else
      match (if timePart.length = 3 then rustSlice timePart 0 1
             else rustSlice timePart 0 2),
            rustSlice timePart (timePart.length - 2) timePart.length with
      | some hp, some mp => some (hp ++ [58] ++ mp ++ [32] ++ meridian)
      | _, _ => none
  else
    some (timePart ++ [32] ++ meridian)

/-- The tail of the am/pm branch (src/parser.rs:85-90): parse the
normalised string with "%I:%M %P", then apply the 12am fix-up
`from_hms_opt(0, time.minute(), 0).unwrap()` (the unwrap panics when the
option is none, i.e. when the minute is out of range — an unreachable
branch, modelled nonetheless); a parse failure falls through to the
final format error of src/parser.rs:91-94 carrying the original input. -/
def meridianFinish (val meridian ns : List Nat) : PTResult :=
  match parseIMP ns with
  | some time =>
    if time.hour = 12 ∧ meridian = ascii "am" then
      if time.minute ≤ 59 then .ok ⟨0, time.minute⟩ else .panicked
    else .ok time
  | none => .err (timeFormatErr val)

/-- The am/pm branch after the meridian and time part have been sliced
off: normalise the time part (a slicing panic propagates) and finish. -/
def afterSlices (val meridian timePart : List Nat) : PTResult :=
  match normalizedTime timePart meridian with
  | none => .panicked
  | some ns => meridianFinish val meridian ns

/-- The am/pm branch and final error of `parse_time_str`
(src/parser.rs:61-95), reached after the two 24-hour attempts failed:
when the lower-cased input ends in "am" or "pm", slice off the meridian
(the last two bytes) and the time part (the rest) and continue;
otherwise return the format error. -/
def meridianBranch (val timeStr : List Nat) : PTResult :=
  if endsWith timeStr (ascii "am") || endsWith timeStr (ascii "pm") then
    match rustSlice timeStr (timeStr.length - 2) timeStr.length,
          rustSlice timeStr 0 (timeStr.length - 2) with
    | some meridian, some timePart => afterSlices val meridian timePart
    | _, _ => .panicked
  else .err (timeFormatErr val)

/-- The branches of `parse_time_str` after the first "%H:%M" attempt
failed, on the already lower-cased string: the compact four-digit retry
(src/parser.rs:52-59), then the am/pm branch. -/
def afterHM (val timeStr : List Nat) : PTResult :=
  if timeStr.length = 4 ∧ timeStr.all isAsciiDigit then
    match rustSlice timeStr 0 2, rustSlice timeStr 2 4 with
    | some hh, some mm =>
      match parseHM (hh ++ [58] ++ mm) with
      | some time => .ok time
      | none => meridianBranch val timeStr
    | _, _ => .panicked
  else meridianBranch val timeStr

/-- src/parser.rs:43-96 `parse_time_str`: lower-case the input, try
"%H:%M", then (for exactly 4 digit bytes) reformat as HH:MM and retry,
then the am/pm branch. -/
def parse_time_str (val : List Nat) : PTResult :=
  match parseHM (toLowercase val) with
  | some time => .ok time
  | none => afterHM val (toLowercase val)

/-- Decidable equality for `Except` results, so concrete runs of the
parser can be checked by evaluation. -/
instance {ε α : Type} [DecidableEq ε] [DecidableEq α] : DecidableEq (Except ε α)
  | .error e, .error f =>
    if h : e = f then .isTrue (by rw [h])
    else .isFalse (by intro hc; cases hc; exact h rfl)
  | .error _, .ok _ => .isFalse (by intro hc; cases hc)
  | .ok _, .error _ => .isFalse (by intro hc; cases hc)
  | .ok a, .ok b =>
    if h : a = b then .isTrue (by rw [h])
    else .isFalse (by intro hc; cases hc; exact h rfl)

/-- chrono `NaiveDate` as the program uses it: a year/month/day triple
built only through `fromYmdOpt`. -/
structure NaiveDate where
  year : Int
  month : Nat
  day : Nat
deriving DecidableEq, Repr

/-- Proleptic Gregorian leap-year rule, as chrono computes it. -/
def isLeapYear (y : Int) : Bool :=
  decide (y % 4 = 0 ∧ (y % 100 ≠ 0 ∨ y % 400 = 0))

/-- Length of a month in the proleptic Gregorian calendar (0 for an
out-of-range month number, making the day check below fail). -/
def daysInMonth (y : Int) (m : Nat) : Nat :=
  match m with
  | 1 => 31
  | 2 => if isLeapYear y then 29 else 28
  | 3 => 31
  | 4 => 30
  | 5 => 31
  | 6 => 30
  | 7 => 31
  | 8 => 31
  | 9 => 30
  | 10 => 31
  | 11 => 30
  | 12 => 31
  | _ => 0

/-- chrono `NaiveDate::from_ymd_opt`: Some exactly when the month is
1..=12 and the day 1..=days-in-that-month.  (chrono's astronomical year
bound of about ±262000 is not modelled; the year here always comes from
the wall clock.) -/
def fromYmdOpt (y : Int) (m d : Nat) : Option NaiveDate :=
  if 1 ≤ m ∧ m ≤ 12 ∧ 1 ≤ d ∧ d ≤ daysInMonth y m then some ⟨y, m, d⟩
  else none

/-- Rust `str::parse::<u32>` on a byte string: succeeds on a nonempty
all-digit string whose value fits u32.  (A leading + sign is accepted by
Rust but never reaches this code, the callers having checked all-digits.) -/
def parseU32 (s : List Nat) : Option Nat :=
  if s ≠ [] ∧ s.all isAsciiDigit ∧ digitsVal s < 2 ^ 32 then some (digitsVal s)
  else none

/-- src/parser.rs:20-41 `parse_date_str`.  The source reads the wall
clock inside the function (`Local::now().year()`, line 36); that read is
made explicit here as the `current_year` parameter, so the embedding is a
pure function of the input string and of the clock year observed at call
time.  The `[0..2]`/`[2..4]` slices are written with take/drop because
the guard has established four ASCII-digit bytes, making the byte
boundaries safe. -/
def parse_date_str (dateStr : List Nat) (current_year : Int) :
    Except TimeKeeperError NaiveDate :=
  if (dateStr.filter (fun b => b ≠ 47)).length = 4
      ∧ (dateStr.filter (fun b => b ≠ 47)).all isAsciiDigit then
    match parseU32 ((dateStr.filter (fun b => b ≠ 47)).take 2) with
    | none => .error (.ParseError (ascii "Invalid month"))
    | some month =>
      match parseU32 ((dateStr.filter (fun b => b ≠ 47)).drop 2) with
      | none => .error (.ParseError (ascii "Invalid day"))
      | some day =>
        match fromYmdOpt current_year month day with
        | some d => .ok d
        | none =>
          .error (.ParseError (ascii "Invalid date: month=" ++ natRepr month
            ++ ascii ", day=" ++ natRepr day))
  else .error (.ParseError (ascii "Invalid date format. Use MMDD or MM/DD"))

/-- chrono `NaiveTime` ordering restricted to second-zero values:
lexicographic on (hour, minute); `timeLE x y` is x <= y. -/
def timeLE (x y : NaiveTime) : Bool :=
  decide (x.hour < y.hour) || (decide (x.hour = y.hour) && decide (x.minute ≤ y.minute))

/-- Minutes since midnight. -/
def toMinutes (t : NaiveTime) : Int := t.hour * 60 + t.minute

/-- The entry-validation fragment shared by `handle_record`
(src/app.rs:91-93 and 111) and `handle_check_out` (src/app.rs:55-57 and
70-73): reject unless check-out is strictly greater, otherwise return
`check_out.signed_duration_since(check_in).num_minutes()`, which on
second-zero times is exactly the minutes-since-midnight difference. -/
def validate (check_in check_out : NaiveTime) : Except TimeKeeperError Int :=
  if timeLE check_out check_in then .error .CheckOutBeforeCheckIn
  else .ok (toMinutes check_out - toMinutes check_in)

/-- Two-digit zero-padded decimal, as chrono formats "%H" and "%M" for
values below 100. -/
def pad2 (n : Nat) : List Nat := [48 + n / 10, 48 + n % 10]

/-- chrono `format("%H:%M")` on a second-zero `NaiveTime`, as
src/app.rs:111-112 displays stored times. -/
def formatHM (t : NaiveTime) : List Nat := pad2 t.hour ++ [58] ++ pad2 t.minute

/-! ## Helper lemmas -/

/-- Removing slash bytes from an all-digit byte string changes nothing:
digit bytes are 48..=57 and the slash byte is 47. -/
theorem filter_slash_of_digits {l : List Nat} (h : l.all isAsciiDigit = true) :
    l.filter (fun b => b ≠ 47) = l := by
  induction l with
  | nil => rfl
  | cons x xs ih =>
    rw [List.all_cons, Bool.and_eq_true] at h
    have hx : 48 ≤ x ∧ x ≤ 57 := by
      have hd := h.1
      unfold isAsciiDigit at hd
      exact of_decide_eq_true hd
    rw [List.filter_cons, ih h.2, if_pos (by simp only [ne_eq, decide_not,
      Bool.not_eq_eq_eq_not, Bool.not_true, decide_eq_false_iff_not]; omega)]

/-- Two digit bytes parse as a u32 with the expected base-10 value. -/
theorem parseU32_two_digits {a b : Nat} (ha : a < 10) (hb : b < 10) :
    parseU32 [48 + a, 48 + b] = some (10 * a + b) := by
  have h1 : isAsciiDigit (48 + a) = true := by
    unfold isAsciiDigit; simp only [decide_eq_true_eq]; omega
  have h2 : isAsciiDigit (48 + b) = true := by
    unfold isAsciiDigit; simp only [decide_eq_true_eq]; omega
  unfold parseU32
  rw [if_pos ⟨by simp, by simp [List.all_cons, h1, h2],
    by unfold digitsVal; simp only [List.foldl]; omega⟩]
  unfold digitsVal
  simp only [List.foldl]
  congr 1
  omega


/-- The "%H:%M" parser returns only in-range times: the hour setter
admits 0..=23 and the minute setter 0..=59. -/
theorem parseHM_bounds {s : List Nat} {t : NaiveTime} (heq : parseHM s = some t) :
    t.hour ≤ 23 ∧ t.minute ≤ 59 := by
  unfold parseHM at heq
  repeat' split at heq
  all_goals try cases heq
  all_goals simp_all

/-- The "%I:%M %P" parser returns only in-range times: the hour is
hour12 % 12 plus at most 12, the minute setter admits 0..=59. -/
theorem parseIMP_bounds {s : List Nat} {t : NaiveTime} (heq : parseIMP s = some t) :
    t.hour ≤ 23 ∧ t.minute ≤ 59 := by
  unfold parseIMP at heq
  repeat' split at heq
  all_goals try cases heq
  all_goals simp_all
  all_goals omega

/-- Every time the am/pm branch accepts is in range. -/
theorem meridianBranch_bounds {val ts : List Nat} {t : NaiveTime}
    (heq : meridianBranch val ts = .ok t) : t.hour ≤ 23 ∧ t.minute ≤ 59 := by
  unfold meridianBranch afterSlices meridianFinish at heq
  repeat' split at heq
  all_goals try cases heq
  all_goals try simp_all
  all_goals (first
    | omega
    | (rename_i himp _ _; exact parseIMP_bounds himp)
    | (rename_i himp _; exact parseIMP_bounds himp)
    | (rename_i himp; exact parseIMP_bounds himp))

/-- Every time the compact retry or the am/pm branch accepts is in
range. -/
theorem afterHM_bounds {val ts : List Nat} {t : NaiveTime}
    (heq : afterHM val ts = .ok t) : t.hour ≤ 23 ∧ t.minute ≤ 59 := by
  unfold afterHM at heq
  split at heq
  · split at heq
    · split at heq
      · rename_i hpm
        cases heq
        exact parseHM_bounds hpm
      · exact meridianBranch_bounds heq
    · cases heq
  · exact meridianBranch_bounds heq

/-- Every time `parse_time_str` accepts is in range: hour 0..=23, minute
0..=59. -/
theorem parse_time_bounds {s : List Nat} {t : NaiveTime}
    (heq : parse_time_str s = .ok t) : t.hour ≤ 23 ∧ t.minute ≤ 59 := by
  unfold parse_time_str at heq
  split at heq
  · rename_i time hp
    cases heq
    exact parseHM_bounds hp
  · exact afterHM_bounds heq

/-- Every position up to the length of an all-ASCII byte string is a char
boundary. -/
theorem isCharBoundary_ascii {s : List Nat} {i : Nat} (hle : i ≤ s.length)
    (h : ∀ b ∈ s, b < 128) : isCharBoundary s i = true := by
  unfold isCharBoundary
  split
  · rfl
  · split
    · rename_i hdrop
      have hlen : s.length - i = 0 := by
        rw [← List.length_drop, hdrop]
        rfl
      simp only [decide_eq_true_eq]
      omega
    · rename_i b t hdrop
      have hb : b ∈ s := by
        have hmem : b ∈ s.drop i := by
          rw [hdrop]
          simp
        exact List.mem_of_mem_drop hmem
      have := h b hb
      simp only [decide_eq_true_eq]
      omega

/-- Slicing an all-ASCII byte string never panics: it yields the byte
range. -/
theorem rustSlice_ascii {s : List Nat} {lo hi : Nat} (h1 : lo ≤ hi) (h2 : hi ≤ s.length)
    (h : ∀ b ∈ s, b < 128) : rustSlice s lo hi = some ((s.take hi).drop lo) := by
  unfold rustSlice
  rw [if_pos]
  simp only [Bool.and_eq_true, decide_eq_true_eq]
  exact ⟨⟨⟨h1, h2⟩, isCharBoundary_ascii (le_trans h1 h2) h⟩, isCharBoundary_ascii h2 h⟩

/-- An all-digit byte string contains no colon byte. -/
theorem contains_colon_false_of_digits {l : List Nat} (h : ∀ b ∈ l, 48 ≤ b ∧ b ≤ 57) :
    l.contains 58 = false := by
  induction l with
  | nil => rfl
  | cons x xs ih =>
    have hx := h x (by simp)
    rw [List.contains_cons]
    rw [ih (fun b hb => h b (List.mem_cons_of_mem x hb))]
    have hbeq : (58 == x) = false := by
      rw [beq_eq_false_iff_ne]
      omega
    rw [hbeq]
    rfl

/-- Scanning with width two consumes exactly two leading digit bytes. -/
theorem takeDigits_two (x y : Nat) (r : List Nat)
    (hdx : isAsciiDigit x = true) (hdy : isAsciiDigit y = true) :
    takeDigits 2 (x :: y :: r) = ([x, y], r) := by
  have h1 : takeDigits 1 (y :: r) = ([y], r) := by
    show (if isAsciiDigit y then
        let p := takeDigits 0 r
        (y :: p.1, p.2)
      else ([], y :: r)) = ([y], r)
    rw [if_pos hdy]
    show (y :: (takeDigits 0 r).1, (takeDigits 0 r).2) = ([y], r)
    rw [show takeDigits 0 r = ([], r) from by unfold takeDigits; cases r <;> rfl]
  show (if isAsciiDigit x then
      let p := takeDigits 1 (y :: r)
      (x :: p.1, p.2)
    else ([], x :: y :: r)) = ([x, y], r)
  rw [if_pos hdx]
  show (x :: (takeDigits 1 (y :: r)).1, (takeDigits 1 (y :: r)).2) = ([x, y], r)
  rw [h1]

/-- chrono number scanning on two leading digit bytes returns their
base-10 value and the rest of the input. -/
theorem scanNumber_two (x y : Nat) (r : List Nat)
    (hdx : isAsciiDigit x = true) (hdy : isAsciiDigit y = true) :
    scanNumber 2 (x :: y :: r) = some (digitsVal [x, y], r) := by
  show (if (takeDigits 2 (x :: y :: r)).1.isEmpty then none
    else some (digitsVal (takeDigits 2 (x :: y :: r)).1, (takeDigits 2 (x :: y :: r)).2))
    = some (digitsVal [x, y], r)
  rw [takeDigits_two x y r hdx hdy]
  rfl

/-- Trimming leaves a string whose first byte is not whitespace
unchanged. -/
theorem trimLeft_nonws (x : Nat) (r : List Nat) (hx : isWsByte x = false) :
    trimLeft (x :: r) = x :: r := by
  unfold trimLeft
  rw [hx]
  rfl

/-- The "%H:%M" parse fails on a string starting with two digit bytes not
followed by a colon: the scanner stops at width two and the literal colon
item does not match. -/
theorem parseHM_stuck (x y : Nat) (r : List Nat)
    (hx : 48 ≤ x ∧ x ≤ 57) (hy : 48 ≤ y ∧ y ≤ 57)
    (hr : ∀ s2 : List Nat, r ≠ 58 :: s2) : parseHM (x :: y :: r) = none := by
  have hdx : isAsciiDigit x = true := by
    unfold isAsciiDigit; simp only [decide_eq_true_eq]; omega
  have hdy : isAsciiDigit y = true := by
    unfold isAsciiDigit; simp only [decide_eq_true_eq]; omega
  have hwx : isWsByte x = false := by
    unfold isWsByte; simp only [decide_eq_false_iff_not]; omega
  unfold parseHM
  rw [trimLeft_nonws x (y :: r) hwx, scanNumber_two x y r hdx hdy]
  show (if digitsVal [x, y] ≤ 23 then
      (match r with
       | 58 :: s2 =>
         match scanNumber 2 (trimLeft s2) with
         | none => none
         | some (m, s3) =>
           if m ≤ 59 ∧ s3 = [] then some (NaiveTime.mk (digitsVal [x, y]) m) else none
       | _ => none)
    else none) = none
  by_cases hle : digitsVal [x, y] ≤ 23
  · rw [if_pos hle]
    cases r with
    | nil => rfl
    | cons d t =>
      have hd58 : d ≠ 58 := fun hc => hr t (by rw [hc])
      split
      · rename_i s2 heq
        injection heq with h1 h2
        exact absurd h1 hd58
      · rfl
  · rw [if_neg hle]

/-- Core of the length-5-or-more meridian behaviour: for every all-digit
middle segment, the input 1 1 mid 3 0 p m parses as 23:30 — the hour is
taken from the first two bytes and the minute from the last two, and the
middle bytes never influence the result. -/
theorem middle_digits_ignored (mid : List Nat)
    (hmid : mid.all isAsciiDigit = true) :
    parse_time_str (49 :: 49 :: (mid ++ [51, 48, 112, 109])) = .ok ⟨23, 30⟩ := by
  have hdig : ∀ b ∈ mid, 48 ≤ b ∧ b ≤ 57 := by
    intro b hb
    have hd := List.all_eq_true.mp hmid b hb
    unfold isAsciiDigit at hd
    exact of_decide_eq_true hd
  have hlen : (49 :: 49 :: (mid ++ [51, 48, 112, 109])).length = mid.length + 6 := by
    simp [List.length_append]
  have hfdig : ∀ b ∈ 49 :: 49 :: (mid ++ [51, 48]), 48 ≤ b ∧ b ≤ 57 := by
    intro b hb
    simp only [List.mem_cons, List.mem_append] at hb
    rcases hb with rfl | rfl | hmem | hb2
    · omega
    · omega
    · exact hdig b hmem
    · simp only [List.mem_cons, List.not_mem_nil, or_false] at hb2
      rcases hb2 with rfl | rfl <;> omega
  have hf128 : ∀ b ∈ 49 :: 49 :: (mid ++ [51, 48]), b < 128 := by
    intro b hb
    have := hfdig b hb
    omega
  have hflen : (49 :: 49 :: (mid ++ [51, 48])).length = mid.length + 4 := by
    simp [List.length_append]
  have hascii : ∀ b ∈ 49 :: 49 :: (mid ++ [51, 48, 112, 109]), b < 128 := by
    intro b hb
    simp only [List.mem_cons, List.mem_append] at hb
    rcases hb with rfl | rfl | hmem | hb2
    · omega
    · omega
    · have := hdig b hmem
      omega
    · simp only [List.mem_cons, List.not_mem_nil, or_false] at hb2
      rcases hb2 with rfl | rfl | rfl | rfl <;> omega
  have hlow : toLowercase (49 :: 49 :: (mid ++ [51, 48, 112, 109]))
      = 49 :: 49 :: (mid ++ [51, 48, 112, 109]) := by
    unfold toLowercase
    conv_rhs => rw [← List.map_id (49 :: 49 :: (mid ++ [51, 48, 112, 109]))]
    apply List.map_congr_left
    intro b hb
    simp only [List.mem_cons, List.mem_append] at hb
    have hbound : ¬ (65 ≤ b ∧ b ≤ 90) := by
      rcases hb with rfl | rfl | hmem | hb2
      · omega
      · omega
      · have := hdig b hmem
        omega
      · simp only [List.mem_cons, List.not_mem_nil, or_false] at hb2
        rcases hb2 with rfl | rfl | rfl | rfl <;> omega
    rw [if_neg hbound]
    rfl
  have hsplitm : 49 :: 49 :: (mid ++ [51, 48, 112, 109])
      = (49 :: 49 :: (mid ++ [51, 48])) ++ [112, 109] := by
    simp [List.append_assoc]
  have hHM : parseHM (49 :: 49 :: (mid ++ [51, 48, 112, 109])) = none := by
    apply parseHM_stuck 49 49 _ (by omega) (by omega)
    intro s2 hc
    cases mid with
    | nil =>
      rw [List.nil_append] at hc
      injection hc with h1 _
      omega
    | cons d t =>
      rw [List.cons_append] at hc
      injection hc with h1 _
      have := hdig d (by simp)
      omega
  unfold parse_time_str
  rw [hlow, hHM]
  show afterHM (49 :: 49 :: (mid ++ [51, 48, 112, 109]))
      (49 :: 49 :: (mid ++ [51, 48, 112, 109])) = .ok ⟨23, 30⟩
  unfold afterHM
  rw [if_neg (fun hcontra =>
    absurd (List.all_eq_true.mp hcontra.2 112 (by simp)) (by decide))]
  unfold meridianBranch
  have hends : endsWith (49 :: 49 :: (mid ++ [51, 48, 112, 109])) (ascii "pm") = true := by
    unfold endsWith
    rw [Bool.and_eq_true]
    constructor
    · simp only [decide_eq_true_eq]
      rw [hlen]
      show 2 ≤ mid.length + 6
      omega
    · simp only [decide_eq_true_eq]
      rw [hsplitm]
      have h2 : ((49 :: 49 :: (mid ++ [51, 48])) ++ [112, 109]).length - (ascii "pm").length
          = (49 :: 49 :: (mid ++ [51, 48])).length := by
        rw [show (ascii "pm").length = 2 from rfl]
        simp [List.length_append]
      rw [h2, List.drop_left]
      rfl
  have hor : (endsWith (49 :: 49 :: (mid ++ [51, 48, 112, 109])) (ascii "am")
      || endsWith (49 :: 49 :: (mid ++ [51, 48, 112, 109])) (ascii "pm")) = true := by
    rw [hends, Bool.or_true]
  rw [if_pos hor]
  have hmer : rustSlice (49 :: 49 :: (mid ++ [51, 48, 112, 109]))
      ((49 :: 49 :: (mid ++ [51, 48, 112, 109])).length - 2)
      (49 :: 49 :: (mid ++ [51, 48, 112, 109])).length = some [112, 109] := by
    rw [rustSlice_ascii (by omega) (le_refl _) hascii, List.take_length]
    congr 1
    rw [hsplitm]
    have h2 : ((49 :: 49 :: (mid ++ [51, 48])) ++ [112, 109]).length - 2
        = (49 :: 49 :: (mid ++ [51, 48])).length := by
      simp [List.length_append]
    rw [h2, List.drop_left]
  have hpart : rustSlice (49 :: 49 :: (mid ++ [51, 48, 112, 109])) 0
      ((49 :: 49 :: (mid ++ [51, 48, 112, 109])).length - 2)
      = some (49 :: 49 :: (mid ++ [51, 48])) := by
    rw [rustSlice_ascii (Nat.zero_le _) (by omega) hascii, List.drop_zero]
    congr 1
    rw [hsplitm]
    have h2 : ((49 :: 49 :: (mid ++ [51, 48])) ++ [112, 109]).length - 2
        = (49 :: 49 :: (mid ++ [51, 48])).length := by
      simp [List.length_append]
    rw [h2, List.take_left]
  rw [hmer, hpart]
  show afterSlices (49 :: 49 :: (mid ++ [51, 48, 112, 109])) [112, 109]
      (49 :: 49 :: (mid ++ [51, 48])) = .ok ⟨23, 30⟩
  unfold afterSlices
  have hnorm : normalizedTime (49 :: 49 :: (mid ++ [51, 48])) [112, 109]
      = some [49, 49, 58, 51, 48, 32, 112, 109] := by
    unfold normalizedTime
    rw [if_pos (contains_colon_false_of_digits hfdig)]
    rw [if_neg (by rw [hflen]; omega)]
    rw [if_neg (by rw [hflen]; omega)]
    have hhp : rustSlice (49 :: 49 :: (mid ++ [51, 48])) 0 2 = some [49, 49] := by
      rw [rustSlice_ascii (by omega) (by rw [hflen]; omega) hf128]
      rfl
    have hsplitf : 49 :: 49 :: (mid ++ [51, 48]) = (49 :: 49 :: mid) ++ [51, 48] := by
      simp
    have hmp : rustSlice (49 :: 49 :: (mid ++ [51, 48]))
        ((49 :: 49 :: (mid ++ [51, 48])).length - 2)
        (49 :: 49 :: (mid ++ [51, 48])).length = some [51, 48] := by
      rw [rustSlice_ascii (by omega) (le_refl _) hf128, List.take_length]
      congr 1
      rw [hsplitf]
      have h2 : ((49 :: 49 :: mid) ++ [51, 48]).length - 2 = (49 :: 49 :: mid).length := by
        simp [List.length_append]
      rw [h2, List.drop_left]
    rw [hhp, hmp]
    rfl
  rw [hnorm]
  exact (rfl :
    meridianFinish (49 :: 49 :: (mid ++ [51, 48, 112, 109])) [112, 109]
      [49, 49, 58, 51, 48, 32, 112, 109] = .ok ⟨23, 30⟩)

/-! ## C1: meridian time parts of length other than 1..4 -/

/-- C1 counterexample: the five-digit time part "11930" with a pm suffix
is not rejected; `parse_time_str` accepts it and returns 23:30, the
middle digit being dropped. -/
theorem c1_counterexample : parse_time_str (ascii "11930pm") = .ok ⟨23, 30⟩ := by
  decide

/-- C1 amended: in the colon-free meridian form, a time part of length 0
is rejected, but a time part of length 5 or more is not: the hour is read
from the first two bytes and the minute from the last two, every byte in
between being ignored — for every all-digit middle segment, "11" ++ mid
++ "30pm" parses to 23:30 — so "11930pm" (and longer inputs such as
"1199999930pm") parse successfully to 23:30, the same value as
"1130pm". -/
theorem c1_amended_long_time_parts :
    (∀ mid : List Nat, mid.all isAsciiDigit = true →
      parse_time_str (49 :: 49 :: (mid ++ [51, 48, 112, 109])) = .ok ⟨23, 30⟩)
    ∧ parse_time_str (ascii "11930pm") = .ok ⟨23, 30⟩
    ∧ parse_time_str (ascii "1199999930pm") = .ok ⟨23, 30⟩
    ∧ parse_time_str (ascii "11930pm") = parse_time_str (ascii "1130pm")
    ∧ parse_time_str (ascii "am") = .err (timeFormatErr (ascii "am")) := by
  refine ⟨middle_digits_ignored, by decide, by decide, by decide, by decide⟩

/-- Witness for C1 amended at the single middle digit 9, i.e. the bytes
of "11930pm". -/
theorem c1_amended_witness :
    parse_time_str (49 :: 49 :: ([57] ++ [51, 48, 112, 109])) = .ok ⟨23, 30⟩ :=
  c1_amended_long_time_parts.1 [57] (by decide)

/-! ## C2: determinism of date parsing and the wall clock -/

/-- C2 counterexample: the same input string parsed at two different
wall-clock years yields two different results, because `parse_date_str`
reads `Local::now().year()` internally and embeds it into the returned
date. -/
theorem c2_counterexample :
    parse_date_str (ascii "0312") 2024 ≠ parse_date_str (ascii "0312") 2025 := by
  decide

/-- C2 amended: with the internal `Local::now().year()` read made an
explicit parameter, date parsing is a pure function of the input string
and that clock year; the result does depend on the clock, since every
successfully parsed date carries the clock year observed during the
call. -/
theorem c2_amended_clock_year (s : List Nat) (y : Int) (d : NaiveDate)
    (h : parse_date_str s y = .ok d) : d.year = y := by
  unfold parse_date_str at h
  split at h
  · split at h
    · exact absurd h (by simp)
    · split at h
      · exact absurd h (by simp)
      · split at h
        · rename_i dt hdt
          unfold fromYmdOpt at hdt
          split at hdt
          · cases hdt
            cases h
            rfl
          · cases hdt
        · exact absurd h (by simp)
  · exact absurd h (by simp)

/-- Witness for C2 amended: March 12 parsed at clock year 2024 carries
year 2024. -/
theorem c2_amended_witness : (NaiveDate.mk 2024 3 12).year = 2024 :=
  c2_amended_clock_year (ascii "0312") 2024 ⟨2024, 3, 12⟩ (by decide)

/-! ## C3: totality of the time parser -/

/-- C3 failing input: on the input consisting of the bytes of the string
with an accented letter followed by "1am" (UTF-8 bytes C3 A9 31 61 6D),
the hour slice `&time_part[..1]` of src/parser.rs:73 cuts inside the
two-byte character, so the process panics instead of returning a typed
error. -/
theorem c3_panic_on_multibyte :
    parse_time_str [195, 169, 49, 97, 109] = .panicked := by
  decide

/-! ## C4: whitespace handling of the time parser -/

/-- C4 counterexample: an input with a leading space is not rejected;
chrono trims whitespace before every numeric field, so " 9:00" parses
successfully to 09:00. -/
theorem c4_counterexample : parse_time_str (ascii " 9:00") = .ok ⟨9, 0⟩ := by
  decide

/-- C4 amended: whitespace is not uniformly rejected.  The underlying
chrono parser skips whitespace before each numeric field and before the
meridian, so " 9:00" parses to 09:00 and "7:30 pm" to 19:30; whitespace
in other positions, such as trailing ("9:00 ") or between the hour and
the colon ("9 :00"), still fails with the format error. -/
theorem c4_amended_whitespace :
    parse_time_str (ascii " 9:00") = .ok ⟨9, 0⟩
    ∧ parse_time_str (ascii "7:30 pm") = .ok ⟨19, 30⟩
    ∧ parse_time_str (ascii "9:00 ") = .err (timeFormatErr (ascii "9:00 "))
    ∧ parse_time_str (ascii "9 :00") = .err (timeFormatErr (ascii "9 :00")) := by
  refine ⟨by decide, by decide, by decide, by decide⟩

/-! ## C5: error kinds for impossible month/day -/

/-- C5 counterexample: an out-of-range month ("1301") and an out-of-range
day ("0132") fail with the same error kind — the single `ParseError`
constructor carrying a combined message that names both components —
rather than with distinguished InvalidMonth / InvalidDay kinds. -/
theorem c5_counterexample :
    parse_date_str (ascii "1301") 2024
      = .error (.ParseError (ascii "Invalid date: month=13, day=1"))
    ∧ parse_date_str (ascii "0132") 2024
      = .error (.ParseError (ascii "Invalid date: month=1, day=32")) := by
  refine ⟨by decide, by decide⟩

/-- C5 amended: for every 4-digit input whose month/day do not form a
real calendar date, `parse_date_str` fails with the single `ParseError`
kind whose message is "Invalid date: month=M, day=D" (both components
rendered in unpadded decimal); the code does not distinguish which
component is out of range.  (Its "Invalid month"/"Invalid day" messages
sit on integer-parse failures that cannot occur for two ASCII digits.) -/
theorem c5_amended_combined_error (a b c d : Nat) (y : Int)
    (ha : a < 10) (hb : b < 10) (hc : c < 10) (hd : d < 10)
    (hbad : fromYmdOpt y (10 * a + b) (10 * c + d) = none) :
    parse_date_str [48 + a, 48 + b, 48 + c, 48 + d] y
      = .error (.ParseError (ascii "Invalid date: month=" ++ natRepr (10 * a + b)
          ++ ascii ", day=" ++ natRepr (10 * c + d))) := by
  have hall : ([48 + a, 48 + b, 48 + c, 48 + d] : List Nat).all isAsciiDigit = true := by
    simp only [List.all_cons, List.all_nil, Bool.and_true, Bool.and_eq_true]
    unfold isAsciiDigit
    refine ⟨?_, ?_, ?_, ?_⟩ <;> simp only [decide_eq_true_eq] <;> omega
  unfold parse_date_str
  rw [filter_slash_of_digits hall]
  rw [if_pos ⟨by simp, hall⟩]
  rw [show List.take 2 [48 + a, 48 + b, 48 + c, 48 + d] = [48 + a, 48 + b] from rfl]
  rw [show List.drop 2 [48 + a, 48 + b, 48 + c, 48 + d] = [48 + c, 48 + d] from rfl]
  rw [parseU32_two_digits ha hb, parseU32_two_digits hc hd]
  have key : (match fromYmdOpt y (10 * a + b) (10 * c + d) with
      | some dd => (Except.ok dd : Except TimeKeeperError NaiveDate)
      | none => Except.error (TimeKeeperError.ParseError
          (ascii "Invalid date: month=" ++ natRepr (10 * a + b)
            ++ ascii ", day=" ++ natRepr (10 * c + d))))
      = Except.error (TimeKeeperError.ParseError
          (ascii "Invalid date: month=" ++ natRepr (10 * a + b)
            ++ ascii ", day=" ++ natRepr (10 * c + d))) := by rw [hbad]
  exact key

/-- Witness for C5 amended at month 13, day 32 in clock year 2024. -/
theorem c5_amended_witness :
    parse_date_str [48 + 1, 48 + 3, 48 + 3, 48 + 2] 2024
      = .error (.ParseError (ascii "Invalid date: month=" ++ natRepr (10 * 1 + 3)
          ++ ascii ", day=" ++ natRepr (10 * 3 + 2))) :=
  c5_amended_combined_error 1 3 3 2 2024 (by decide) (by decide) (by decide)
    (by decide) (by decide)

/-! ## C6: slash stripping and MMDD decomposition -/

/-- C6: `parse_date_str` strips every slash byte; when the remainder is
not exactly 4 ASCII digits it fails with the date-format error, and when
it is, the first two digits are the month and the last two the day of the
clock year, so "0312" and "03/12" agree at every clock year and give
March 12 of that year. -/
theorem c6_strip_and_decompose :
    (∀ y : Int, parse_date_str (ascii "03/12") y = parse_date_str (ascii "0312") y)
    ∧ parse_date_str (ascii "0312") 2024 = .ok ⟨2024, 3, 12⟩
    ∧ (∀ (s : List Nat) (y : Int),
        ¬ ((s.filter (fun b => b ≠ 47)).length = 4
            ∧ (s.filter (fun b => b ≠ 47)).all isAsciiDigit = true) →
        parse_date_str s y
          = .error (.ParseError (ascii "Invalid date format. Use MMDD or MM/DD")))
    ∧ (∀ (a b c d : Nat) (y : Int) (dt : NaiveDate),
        a < 10 → b < 10 → c < 10 → d < 10 →
        fromYmdOpt y (10 * a + b) (10 * c + d) = some dt →
        parse_date_str [48 + a, 48 + b, 48 + c, 48 + d] y = .ok dt) := by
  refine ⟨fun y => rfl, by decide, ?_, ?_⟩
  · intro s y h
    unfold parse_date_str
    rw [if_neg h]
  · intro a b c d y dt ha hb hc hd hgood
    have hall : ([48 + a, 48 + b, 48 + c, 48 + d] : List Nat).all isAsciiDigit = true := by
      simp only [List.all_cons, List.all_nil, Bool.and_true, Bool.and_eq_true]
      unfold isAsciiDigit
      refine ⟨?_, ?_, ?_, ?_⟩ <;> simp only [decide_eq_true_eq] <;> omega
    unfold parse_date_str
    rw [filter_slash_of_digits hall]
    rw [if_pos ⟨by simp, hall⟩]
    rw [show List.take 2 [48 + a, 48 + b, 48 + c, 48 + d] = [48 + a, 48 + b] from rfl]
    rw [show List.drop 2 [48 + a, 48 + b, 48 + c, 48 + d] = [48 + c, 48 + d] from rfl]
    rw [parseU32_two_digits ha hb, parseU32_two_digits hc hd]
    have key : (match fromYmdOpt y (10 * a + b) (10 * c + d) with
        | some dd => (Except.ok dd : Except TimeKeeperError NaiveDate)
        | none => Except.error (TimeKeeperError.ParseError
            (ascii "Invalid date: month=" ++ natRepr (10 * a + b)
              ++ ascii ", day=" ++ natRepr (10 * c + d))))
        = Except.ok dt := by rw [hgood]
    exact key

/-- Witness for C6: the quantified parts instantiated at the length-3
input "033" (format rejection) and at the digits of March 12, clock year
2024. -/
theorem c6_witness :
    parse_date_str (ascii "033") 2024
      = .error (.ParseError (ascii "Invalid date format. Use MMDD or MM/DD"))
    ∧ parse_date_str [48 + 0, 48 + 3, 48 + 1, 48 + 2] 2024 = .ok ⟨2024, 3, 12⟩ :=
  ⟨c6_strip_and_decompose.2.2.1 (ascii "033") 2024 (by decide),
   c6_strip_and_decompose.2.2.2 0 3 1 2 2024 ⟨2024, 3, 12⟩ (by decide) (by decide)
     (by decide) (by decide) (by decide)⟩

set_option maxRecDepth 8000

/-- Exhaustive evaluation over every in-range hour and minute: all three
24-hour written forms — zero-padded HH:MM, compact HHMM, and
single-digit-hour H:MM — parse back to the exact time. -/
theorem reparse24 : ∀ h : Nat, h < 24 → ∀ m : Nat, m < 60 →
    parse_time_str (pad2 h ++ [58] ++ pad2 m) = .ok ⟨h, m⟩
    ∧ parse_time_str (pad2 h ++ pad2 m) = .ok ⟨h, m⟩
    ∧ (h < 10 → parse_time_str ([48 + h, 58] ++ pad2 m) = .ok ⟨h, m⟩) := by
  decide

/-! ## C7: 24-hour colon and compact forms -/

/-- C7: every valid 24-hour time parses exactly in all three written
forms: zero-padded HH:MM, compact HHMM, and single-digit-hour H:MM. -/
theorem c7_24h_forms : ∀ h : Nat, h < 24 → ∀ m : Nat, m < 60 →
    parse_time_str (pad2 h ++ [58] ++ pad2 m) = .ok ⟨h, m⟩
    ∧ parse_time_str (pad2 h ++ pad2 m) = .ok ⟨h, m⟩
    ∧ (h < 10 → parse_time_str ([48 + h, 58] ++ pad2 m) = .ok ⟨h, m⟩) :=
  reparse24

/-- Witness for C7 at 19:00: the forms "19:00" and "1900". -/
theorem c7_witness :
    parse_time_str (pad2 19 ++ [58] ++ pad2 0) = .ok ⟨19, 0⟩
    ∧ parse_time_str (pad2 19 ++ pad2 0) = .ok ⟨19, 0⟩ :=
  ⟨(c7_24h_forms 19 (by decide) 0 (by decide)).1,
   (c7_24h_forms 19 (by decide) 0 (by decide)).2.1⟩

/-! ## C8: meridian adjustment -/

/-- C8: 12am parses to 00:00 and 12pm to 12:00; for hours 1..11 the pm
form gains twelve and the am form is unchanged; and the out-of-range
meridian hour 13 ("13pm") is rejected. -/
theorem c8_meridian_adjustment :
    parse_time_str (ascii "12am") = .ok ⟨0, 0⟩
    ∧ parse_time_str (ascii "12pm") = .ok ⟨12, 0⟩
    ∧ (∀ h : Nat, h ≤ 11 → 1 ≤ h →
        parse_time_str (ascii (Nat.repr h) ++ ascii "pm") = .ok ⟨h + 12, 0⟩
        ∧ parse_time_str (ascii (Nat.repr h) ++ ascii "am") = .ok ⟨h, 0⟩)
    ∧ parse_time_str (ascii "13pm") = .err (timeFormatErr (ascii "13pm")) := by
  refine ⟨by decide, by decide, by decide, by decide⟩

/-- Witness for C8 at hour 9: "9pm" is 21:00, "9am" is 09:00. -/
theorem c8_witness :
    parse_time_str (ascii (Nat.repr 9) ++ ascii "pm") = .ok ⟨21, 0⟩
    ∧ parse_time_str (ascii (Nat.repr 9) ++ ascii "am") = .ok ⟨9, 0⟩ :=
  (c8_meridian_adjustment.2.2.1 9 (by decide) (by decide))

/-! ## C9: the entry validator -/

/-- C9: validation fails with CheckOutBeforeCheckIn exactly when the
check-out time is not strictly greater than the check-in time in the
(hour, minute) lexicographic order — equal times fail — and otherwise
succeeds with the difference of minutes-since-midnight. -/
theorem c9_validate_order_and_duration : ∀ a b : NaiveTime,
    (validate a b = .error .CheckOutBeforeCheckIn
      ↔ ¬ (a.hour < b.hour ∨ (a.hour = b.hour ∧ a.minute < b.minute)))
    ∧ ((a.hour < b.hour ∨ (a.hour = b.hour ∧ a.minute < b.minute)) →
        validate a b = .ok ((b.hour * 60 + b.minute : Int) - (a.hour * 60 + a.minute))) := by
  intro a b
  have hbool : timeLE b a = true
      ↔ ¬ (a.hour < b.hour ∨ (a.hour = b.hour ∧ a.minute < b.minute)) := by
    unfold timeLE
    simp only [Bool.or_eq_true, Bool.and_eq_true, decide_eq_true_eq]
    omega
  constructor
  · constructor
    · intro heq
      unfold validate at heq
      split at heq
      · rename_i hc
        exact hbool.mp hc
      · exact absurd heq (by simp)
    · intro hn
      unfold validate
      rw [if_pos (hbool.mpr hn)]
  · intro hlt
    unfold validate
    rw [if_neg (fun hc => (hbool.mp hc) hlt)]
    congr 1

/-- Witness for C9: 09:00 to 17:30 is 510 minutes; reversed and equal
times are rejected. -/
theorem c9_witness :
    validate ⟨9, 0⟩ ⟨17, 30⟩ = .ok 510
    ∧ validate ⟨17, 0⟩ ⟨9, 0⟩ = .error .CheckOutBeforeCheckIn
    ∧ validate ⟨9, 0⟩ ⟨9, 0⟩ = .error .CheckOutBeforeCheckIn :=
  ⟨((c9_validate_order_and_duration ⟨9, 0⟩ ⟨17, 30⟩).2 (by decide)).trans (by decide),
   (c9_validate_order_and_duration ⟨17, 0⟩ ⟨9, 0⟩).1.mpr (by decide),
   (c9_validate_order_and_duration ⟨9, 0⟩ ⟨9, 0⟩).1.mpr (by decide)⟩

/-! ## C10: format/parse round trip -/

/-- C10: any time returned by a successful parse, formatted back to
zero-padded 24-hour HH:MM and parsed again, yields the identical value. -/
theorem c10_roundtrip (s : List Nat) (t : NaiveTime)
    (heq : parse_time_str s = .ok t) :
    parse_time_str (formatHM t) = .ok t := by
  obtain ⟨h1, h2⟩ := parse_time_bounds heq
  exact (reparse24 t.hour (by omega) t.minute (by omega)).1

/-- Witness for C10 at the parse of "9am": formatting 09:00 back and
reparsing returns 09:00. -/
theorem c10_witness : parse_time_str (formatHM ⟨9, 0⟩) = .ok ⟨9, 0⟩ :=
  c10_roundtrip (ascii "9am") ⟨9, 0⟩ (by decide)
